import Mathlib

/-!
Shallow embedding of the chess rules engine in INDA23PlusPlus/fritiofr-chers.

The repository contains two evolutions of the engine:

* the final design: `Game` (src/chess/game/mod.rs, apply_move.rs,
  gen_pseudo_legal_moves.rs, fen.rs) wrapping a plain tile container
  `Board`, with the generator threaded through a `skip_castle` flag;
* an older, self-contained design: a `Board` carrying all game state
  (src/chess/board/mod.rs, fen_parser.rs), embedded here as `FullBoard`,
  whose own pseudo-legal generator and attack oracle are mutually
  recursive without any cut (hence embedded with explicit fuel).

Machine integers (`usize`) are modelled as `Nat`, the `i32` ray
coordinates as `Int` exactly where the source casts.  Rust functions
returning `Result` become `Except`; a Rust `&mut self` method mutating
state before a possible error returns the final state together with an
optional error.  Statements that panic in Rust (out-of-bounds `Vec`
indexing, `expect`/`unwrap`, `usize` underflow) are modelled through an
explicit outcome type where a claim depends on them.
-/

set_option linter.unusedVariables false

namespace Chers

/-- Colors of the two sides (src/chess/piece.rs). -/
inductive Color where
  | White
  | Black
deriving DecidableEq, Repr

/-- `Color::opposite` (src/chess/piece.rs). -/
def Color.opposite : Color → Color
  | .White => .Black
  | .Black => .White

/-- The six piece kinds (src/chess/piece.rs). -/
inductive PieceType where
  | Pawn
  | Knight
  | Bishop
  | Rook
  | Queen
  | King
deriving DecidableEq, Repr

/-- A colored piece (src/chess/piece.rs). -/
structure Piece where
  piece_type : PieceType
  color : Color
deriving DecidableEq, Repr

/-- A board coordinate `(x, y)` = (file, rank as stored), both 0–7. -/
abbrev Square := Nat × Nat

/-- The move shapes (src/chess/mv.rs).  The unused `DoublePawnPush`
variant of mv.rs is omitted: `apply_move` and the generator handle
exactly these five shapes.  Fields are in source order:
from, to, (capture,) (rook_from, rook_to,) (promotion). -/
inductive Move where
  | Quiet (fromSq toSq : Square)
  | Capture (fromSq toSq captureSq : Square)
  | Castle (fromSq toSq rookFrom rookTo : Square)
  | QuietPromotion (fromSq toSq : Square) (promotion : PieceType)
  | CapturePromotion (fromSq toSq captureSq : Square) (promotion : PieceType)
deriving DecidableEq, Repr

/-- `Move::is_castle` (src/chess/mv.rs). -/
def Move.is_castle : Move → Bool
  | .Castle _ _ _ _ => true
  | _ => false

/-- `Move::is_capture` (src/chess/mv.rs). -/
def Move.is_capture : Move → Bool
  | .Capture _ _ _ => true
  | .CapturePromotion _ _ _ _ => true
  | _ => false

/-- The 64 tiles, row-major: `index = y * 8 + x` (rank 0 first). -/
abbrev Tiles := List (Option Piece)

/-- Tile read, `index = y * 8 + x`.  Rust's `get_tile` panics when
`x > 7 || y > 7`; every embedded call site guards coordinates to 0–7,
and the out-of-range case is modelled as an empty tile. -/
def tileAt (tiles : Tiles) (x y : Nat) : Option Piece :=
  if x > 7 ∨ y > 7 then none else tiles.getD (y * 8 + x) none

/-- Tile write, same convention as `tileAt` (out of range: no-op). -/
def tileSet (tiles : Tiles) (x y : Nat) (p : Option Piece) : Tiles :=
  if x > 7 ∨ y > 7 then tiles else tiles.set (y * 8 + x) p

/-- The tile container of the final design (`Board` as used by `Game`):
just the 64 tiles. -/
structure Board where
  tiles : Tiles
deriving DecidableEq, Repr

/-- `Board::get_tile`. -/
def Board.get_tile (b : Board) (x y : Nat) : Option Piece :=
  tileAt b.tiles x y

/-- `Board::set_tile`. -/
def Board.set_tile (b : Board) (x y : Nat) (p : Piece) : Board :=
  ⟨tileSet b.tiles x y (some p)⟩

/-- `Board::remove_tile`. -/
def Board.remove_tile (b : Board) (x y : Nat) : Board :=
  ⟨tileSet b.tiles x y none⟩

/-- The `Game` struct (src/chess/game/mod.rs). -/
structure Game where
  board : Board
  turn : Color
  en_passant : Option Square
  white_kingside_castle : Bool
  white_queenside_castle : Bool
  black_kingside_castle : Bool
  black_queenside_castle : Bool
deriving DecidableEq, Repr

/-- `gameApplyMoveError` (src/chess/game/mod.rs). -/
inductive GameApplyMoveError where
  | InvalidMove
  | Debug (n : Nat)
deriving DecidableEq, Repr

/-- Castling-rights revocation for a king move of the given color
(shared shape of the Quiet/Capture/Castle arms of `apply_move`). -/
def revokeKingRights (g : Game) (c : Color) : Game :=
  if c = .White then
    { g with white_kingside_castle := false, white_queenside_castle := false }
  else
    { g with black_kingside_castle := false, black_queenside_castle := false }

/-- The corner-square rights revocation of the Quiet arm of
`Game::apply_move` (src/chess/game/apply_move.rs lines 49–57): keyed on
the `from` square alone, with no check that the mover is a rook. -/
def revokeCornerFrom (g : Game) (fromSq : Square) : Game :=
  if fromSq = (0, 7) then { g with white_queenside_castle := false }
  else if fromSq = (7, 7) then { g with white_kingside_castle := false }
  else if fromSq = (0, 0) then { g with black_queenside_castle := false }
  else if fromSq = (7, 0) then { g with black_kingside_castle := false }
  else g

/-- The rook-move rights revocation of the Capture arm of
`Game::apply_move` (lines 79–93): same corners, but only for a rook. -/
def revokeRookFrom (g : Game) (piece : Piece) (fromSq : Square) : Game :=
  if piece.piece_type = .Rook then
    if piece.color = .White then
      if fromSq = (0, 7) then { g with white_queenside_castle := false }
      else if fromSq = (7, 7) then { g with white_kingside_castle := false }
      else g
    else
      if fromSq = (0, 0) then { g with black_queenside_castle := false }
      else if fromSq = (7, 0) then { g with black_kingside_castle := false }
      else g
  else g

/-- The captured-piece rights revocation of the Capture and
CapturePromotion arms of `Game::apply_move` (lines 95–109, 177–191):
keyed on the captured piece's color and the capture square. -/
def revokeCaptured (g : Game) (capturedColor : Color) (captureSq : Square) : Game :=
  if capturedColor = .White then
    if captureSq = (0, 7) then { g with white_queenside_castle := false }
    else if captureSq = (7, 7) then { g with white_kingside_castle := false }
    else g
  else
    if captureSq = (0, 0) then { g with black_queenside_castle := false }
    else if captureSq = (7, 0) then { g with black_kingside_castle := false }
    else g

/-- The dispatch of `Game::apply_move` (src/chess/game/apply_move.rs
lines 26–207): everything between the unconditional en-passant clear
and the turn flip.  Returns the state of `self` as left by the arm,
plus the error if the arm returned early.  All mutations of an arm
happen strictly after its error checks, so an error leaves the state
it received untouched. -/
def Game.apply_move_inner (g : Game) (mv : Move) : Game × Option GameApplyMoveError :=
  match mv with
  | .Quiet fromSq toSq =>
    match g.board.get_tile fromSq.1 fromSq.2 with
    | some piece =>
      let g := if piece.piece_type = .Pawn ∧
          ((fromSq.2 : Int) - (toSq.2 : Int)).natAbs = 2 then
          { g with en_passant := some toSq } else g
      let g := if piece.piece_type = .King then revokeKingRights g piece.color else g
      let g := revokeCornerFrom g fromSq
      let b := (g.board.remove_tile fromSq.1 fromSq.2).set_tile toSq.1 toSq.2 piece
      ({ g with board := b }, none)
    | none => (g, some .InvalidMove)
  | .Capture fromSq toSq captureSq =>
    match g.board.get_tile fromSq.1 fromSq.2 with
    | some piece =>
      let g := if piece.piece_type = .King then revokeKingRights g piece.color else g
      let g := revokeRookFrom g piece fromSq
      let g := match g.board.get_tile captureSq.1 captureSq.2 with
        | some captured => revokeCaptured g captured.color captureSq
        | none => g
      let b := ((g.board.remove_tile captureSq.1 captureSq.2).remove_tile
          fromSq.1 fromSq.2).set_tile toSq.1 toSq.2 piece
      ({ g with board := b }, none)
    | none => (g, some .InvalidMove)
  | .Castle fromSq toSq rookFrom rookTo =>
    match g.board.get_tile fromSq.1 fromSq.2 with
    | some king_piece =>
      match g.board.get_tile rookFrom.1 rookFrom.2 with
      | some rook_piece =>
        let g := revokeKingRights g king_piece.color
        let b := (((g.board.remove_tile fromSq.1 fromSq.2).remove_tile
            rookFrom.1 rookFrom.2).set_tile toSq.1 toSq.2 king_piece).set_tile
            rookTo.1 rookTo.2 rook_piece
        ({ g with board := b }, none)
      | none => (g, some (.Debug 0))
    | none => (g, some (.Debug 1))
  | .QuietPromotion fromSq toSq promotion =>
    match g.board.get_tile fromSq.1 fromSq.2 with
    | some piece =>
      let b := (g.board.remove_tile fromSq.1 fromSq.2).set_tile toSq.1 toSq.2
          ⟨promotion, piece.color⟩
      ({ g with board := b }, none)
    | none => (g, some .InvalidMove)
  | .CapturePromotion fromSq toSq captureSq promotion =>
    match g.board.get_tile fromSq.1 fromSq.2 with
    | some piece =>
      let g := match g.board.get_tile captureSq.1 captureSq.2 with
        | some captured => revokeCaptured g captured.color captureSq
        | none => g
      let b := ((g.board.remove_tile fromSq.1 fromSq.2).remove_tile
          captureSq.1 captureSq.2).set_tile toSq.1 toSq.2 ⟨promotion, piece.color⟩
      ({ g with board := b }, none)
    | none => (g, some .InvalidMove)

/-- `Game::apply_move` (src/chess/game/apply_move.rs): clear en passant
unconditionally, dispatch on the move shape, flip the turn on success.
An early error return leaves the already-performed en-passant clear in
place and skips the turn flip. -/
def Game.apply_move (g : Game) (mv : Move) : Game × Option GameApplyMoveError :=
  match ({ g with en_passant := none } : Game).apply_move_inner mv with
  | (g1, none) => ({ g1 with turn := g1.turn.opposite }, none)
  | (g1, some e) => (g1, some e)

/-! ## The pseudo-legal generator of the final design
(src/chess/game/gen_pseudo_legal_moves.rs) -/

/-- `ROOK_DIRS`. -/
def ROOK_DIRS : List (Int × Int) := [(1, 0), (-1, 0), (0, 1), (0, -1)]

/-- `BISHOP_DIRS`. -/
def BISHOP_DIRS : List (Int × Int) := [(1, 1), (-1, 1), (1, -1), (-1, -1)]

/-- `KING_QUEEN_DIRS`. -/
def KING_QUEEN_DIRS : List (Int × Int) :=
  [(1, 0), (-1, 0), (0, 1), (0, -1), (1, 1), (-1, 1), (1, -1), (-1, -1)]

/-- `KNIGHT_DIRS`. -/
def KNIGHT_DIRS : List (Int × Int) :=
  [(2, 1), (2, -1), (-2, 1), (-2, -1), (1, 2), (1, -2), (-1, 2), (-1, -2)]

/-- `OutSearch`: the declarative search table of the generator. -/
structure OutSearch where
  depth : Nat
  dirs : List (Int × Int)
  quiet : Bool
  captures : Bool

/-- `ROOK_OUT_SEARCH`. -/
def ROOK_OUT_SEARCH : OutSearch := ⟨8, ROOK_DIRS, true, true⟩

/-- `BISHOP_OUT_SEARCH`. -/
def BISHOP_OUT_SEARCH : OutSearch := ⟨8, BISHOP_DIRS, true, true⟩

/-- `QUEEN_OUT_SEARCH`. -/
def QUEEN_OUT_SEARCH : OutSearch := ⟨8, KING_QUEEN_DIRS, true, true⟩

/-- `KNIGHT_OUT_SEARCH`. -/
def KNIGHT_OUT_SEARCH : OutSearch := ⟨1, KNIGHT_DIRS, true, true⟩

/-- `KING_OUT_SEARCH`. -/
def KING_OUT_SEARCH : OutSearch := ⟨1, KING_QUEEN_DIRS, true, true⟩

/-- The promotion kinds, in source order. -/
def promotion_pieces : List PieceType := [.Queen, .Rook, .Bishop, .Knight]

/-- The inner ray loop `for i in 1..=search.depth { .. }` of the
generator, for one direction `d`: `i` is the current step count, the
second argument the remaining iterations.  Stops at the board edge and
at the first occupied square (a capture there only for an enemy piece,
when captures are allowed). -/
def ray_walk (tiles : Tiles) (piece : Piece) (x y : Nat) (quiet captures : Bool)
    (d : Int × Int) : Nat → Nat → List Move
  | _, 0 => []
  | i, r + 1 =>
    let c_x : Int := d.1 * i + x
    let c_y : Int := d.2 * i + y
    if c_x < 0 ∨ c_x > 7 ∨ c_y < 0 ∨ c_y > 7 then []
    else
      match tileAt tiles c_x.toNat c_y.toNat with
      | some oc_piece =>
        if oc_piece.color ≠ piece.color ∧ captures then
          [.Capture (x, y) (c_x.toNat, c_y.toNat) (c_x.toNat, c_y.toNat)]
        else []
      | none =>
        (if quiet then [.Quiet (x, y) (c_x.toNat, c_y.toNat)] else []) ++
          ray_walk tiles piece x y quiet captures d (i + 1) r

/-- The "Regular search out" of the generator over one `OutSearch`. -/
def search_moves (tiles : Tiles) (piece : Piece) (x y : Nat) (search : OutSearch) :
    List Move :=
  search.dirs.flatMap (fun d => ray_walk tiles piece x y search.quiet search.captures d 1 search.depth)

/-- The search table entry chosen for a non-pawn piece kind
(`Pawn` is unreachable in the source; mapped to the king entry). -/
def out_search_of : PieceType → OutSearch
  | .Rook => ROOK_OUT_SEARCH
  | .Bishop => BISHOP_OUT_SEARCH
  | .Queen => QUEEN_OUT_SEARCH
  | .Knight => KNIGHT_OUT_SEARCH
  | .King => KING_OUT_SEARCH
  | .Pawn => KING_OUT_SEARCH

/-- The signed coordinates `k` steps from `(x, y)` along direction
`d`, exactly as the ray loop computes them. -/
def ray_target (d : Int × Int) (x y k : Nat) : Int × Int :=
  (d.1 * k + x, d.2 * k + y)

/-- The same point as a square (after the loop's `usize` casts). -/
def ray_square (d : Int × Int) (x y k : Nat) : Square :=
  ((ray_target d x y k).1.toNat, (ray_target d x y k).2.toNat)

/-- The point `k` steps out lies on the board. -/
def ray_on_board (d : Int × Int) (x y k : Nat) : Prop :=
  0 ≤ (ray_target d x y k).1 ∧ (ray_target d x y k).1 ≤ 7 ∧
    0 ≤ (ray_target d x y k).2 ∧ (ray_target d x y k).2 ≤ 7

/-- The square `k` steps out is empty. -/
def ray_empty (tiles : Tiles) (d : Int × Int) (x y k : Nat) : Prop :=
  tileAt tiles (ray_square d x y k).1 (ray_square d x y k).2 = none

/-- What a ray move landing `k` steps out looks like: a Quiet move to
an empty square (when quiets are enabled), or a Capture whose capture
square equals its destination, holding an enemy piece (when captures
are enabled). -/
def ray_move_shape (tiles : Tiles) (piece : Piece) (x y : Nat) (q c : Bool)
    (d : Int × Int) (k : Nat) (m : Move) : Prop :=
  (q = true ∧ m = .Quiet (x, y) (ray_square d x y k) ∧ ray_empty tiles d x y k) ∨
  (c = true ∧ ∃ p, m = .Capture (x, y) (ray_square d x y k) (ray_square d x y k) ∧
    tileAt tiles (ray_square d x y k).1 (ray_square d x y k).2 = some p ∧
    p.color ≠ piece.color)

/-- Pawn final rank: 0 for White, 7 for Black. -/
def pawn_final_rank (c : Color) : Nat := if c = .White then 0 else 7

/-- Pawn forward direction: -1 for White, 1 for Black. -/
def pawn_dir (c : Color) : Int := if c = .White then -1 else 1

/-- Pawn starting rank: 6 for White, 1 for Black. -/
def pawn_starting_rank (c : Color) : Nat := if c = .White then 6 else 1

/-- The "Regular move forwards" block of the pawn generator: single
push to an empty square, as four promotions when it lands on the final
rank. -/
def pawn_forward (tiles : Tiles) (piece : Piece) (x y : Nat) : List Move :=
  let c_x : Int := x
  let c_y : Int := y + pawn_dir piece.color
  if 0 ≤ c_y ∧ c_y ≤ 7 then
    match tileAt tiles c_x.toNat c_y.toNat with
    | none =>
      if c_y.toNat = pawn_final_rank piece.color then
        promotion_pieces.map (fun p => .QuietPromotion (x, y) (c_x.toNat, c_y.toNat) p)
      else
        [.Quiet (x, y) (c_x.toNat, c_y.toNat)]
    | some _ => []
  else []

/-- The "Double forwards" block of the pawn generator. -/
def pawn_double (tiles : Tiles) (piece : Piece) (x y : Nat) : List Move :=
  let dir := pawn_dir piece.color
  let c_x : Int := x
  let c_y : Int := y + dir * 2
  if (0 ≤ c_y ∧ c_y ≤ 7) ∧ y = pawn_starting_rank piece.color then
    let oc_piece_further := tileAt tiles c_x.toNat c_y.toNat
    let oc_piece_close := tileAt tiles c_x.toNat ((c_y : Int) - dir).toNat
    if oc_piece_further = none ∧ oc_piece_close = none then
      [.Quiet (x, y) (c_x.toNat, c_y.toNat)]
    else []
  else []

/-- The "Capture" block of the pawn generator: diagonal captures of an
enemy piece, as four promotions when landing on the final rank. -/
def pawn_captures (tiles : Tiles) (piece : Piece) (x y : Nat) : List Move :=
  ([-1, 1] : List Int).flatMap (fun x_dir =>
    let c_x : Int := x + x_dir
    let c_y : Int := y + pawn_dir piece.color
    if 0 ≤ c_y ∧ c_y ≤ 7 ∧ 0 ≤ c_x ∧ c_x ≤ 7 then
      match tileAt tiles c_x.toNat c_y.toNat with
      | some oc_piece =>
        if oc_piece.color ≠ piece.color then
          if c_y.toNat = pawn_final_rank piece.color then
            promotion_pieces.map (fun p =>
              .CapturePromotion (x, y) (c_x.toNat, c_y.toNat) (c_x.toNat, c_y.toNat) p)
          else
            [.Capture (x, y) (c_x.toNat, c_y.toNat) (c_x.toNat, c_y.toNat)]
        else []
      | none => []
    else [])

/-- The "En passant" block of the pawn generator: the stored square is
matched against `(c_x, y)` — the capture file paired with the capturing
pawn's own rank — and the emitted capture square is the stored square
itself, while the destination is the diagonal target. -/
def pawn_en_passant (tiles : Tiles) (ep : Option Square) (piece : Piece)
    (x y : Nat) : List Move :=
  match ep with
  | some (ep_x, ep_y) =>
    ([-1, 1] : List Int).flatMap (fun x_dir =>
      let c_x : Int := x + x_dir
      let c_y : Int := y + pawn_dir piece.color
      if 0 ≤ c_y ∧ c_y ≤ 7 ∧ 0 ≤ c_x ∧ c_x ≤ 7 then
        if (c_x.toNat, y) = (ep_x, ep_y) then
          [.Capture (x, y) (c_x.toNat, c_y.toNat) (ep_x, ep_y)]
        else []
      else [])
  | none => []

/-- All four pawn blocks, in source order. -/
def pawn_moves (tiles : Tiles) (ep : Option Square) (piece : Piece) (x y : Nat) :
    List Move :=
  pawn_forward tiles piece x y ++ pawn_double tiles piece x y ++
    pawn_captures tiles piece x y ++ pawn_en_passant tiles ep piece x y

/-- Everything the generator emits apart from castling: the pawn
blocks for a pawn, the table-driven ray search otherwise.  This is
exactly `gen_pseudo_legal_moves(_, _, _, true)` restricted to an
occupied square (castling is skipped), and makes no reference to the
attack oracle. -/
def base_moves (tiles : Tiles) (ep : Option Square) (piece : Piece) (x y : Nat) :
    List Move :=
  if piece.piece_type = .Pawn then pawn_moves tiles ep piece x y
  else search_moves tiles piece x y (out_search_of piece.piece_type)

/-- Whether a move is a capture (or capture-promotion) of the given
square: the predicate of the `any` in `tile_under_attack`. -/
def captures_square (sq : Square) : Move → Bool
  | .Capture _ _ c => c = sq
  | .CapturePromotion _ _ c _ => c = sq
  | _ => false

/-- The piece-enumeration of `tile_under_attack`: every piece of
`color` on the dummy board generates its pseudo-legal moves with
`skip_castle = true` (which is `base_moves`), and the tile is under
attack iff some such move captures `(tx, ty)`. -/
def attack_scan (g : Game) (tx ty : Nat) (color : Color) : Bool :=
  ((List.range 64).flatMap (fun i =>
    let x := i % 8
    let y := i / 8
    match g.board.get_tile x y with
    | some p => if p.color = color then base_moves g.board.tiles g.en_passant p x y else []
    | none => [])).any (captures_square (tx, ty))

/-- `tile_under_attack` (src/chess/game/gen_pseudo_legal_moves.rs
lines 325–368): a square holding a piece of the attacking color is
never under attack; an empty square receives a dummy opposing pawn in
a disposable copy; then every pseudo-legal move of the attacking
color (castling skipped) is tested for a capture of the square. -/
def tile_under_attack (g : Game) (x y : Nat) (color : Color) : Bool :=
  match g.board.get_tile x y with
  | some piece =>
    if piece.color = color then false
    else attack_scan g x y color
  | none =>
    attack_scan { g with board := g.board.set_tile x y ⟨.Pawn, color.opposite⟩ } x y color

/-- The castling check data: (non-attacked squares, empty squares,
king end file, rook start file, rook end file). -/
abbrev CastleData := List Nat × List Nat × Nat × Nat × Nat

/-- Queen-side castle data `([4,3,2], [1,2,3], 2, 0, 3)`. -/
def queen_side_tiles : CastleData := ([4, 3, 2], [1, 2, 3], 2, 0, 3)

/-- King-side castle data `([4,5,6], [5,6], 6, 7, 5)`. -/
def king_side_tiles : CastleData := ([4, 5, 6], [5, 6], 6, 7, 5)

/-- The "Castling" block of the generator (lines 270–310): for each
right still held (king side pushed first), require the in-between
squares empty and the king's start, transit and landing squares not
attacked by the opposing color, then emit the Castle move on the home
rank of the king's color. -/
def castle_moves (g : Game) (piece : Piece) : List Move :=
  let rank := if piece.color = .White then 7 else 0
  let kingside_castle := if piece.color = .White then g.white_kingside_castle
    else g.black_kingside_castle
  let queenside_castle := if piece.color = .White then g.white_queenside_castle
    else g.black_queenside_castle
  let check_data : List CastleData :=
    (if kingside_castle then [king_side_tiles] else []) ++
      (if queenside_castle then [queen_side_tiles] else [])
  check_data.flatMap (fun cd =>
    let tiles_not_attacked := cd.1
    let tiles_empty := cd.2.1
    let king_end_x := cd.2.2.1
    let rook_start_x := cd.2.2.2.1
    let rook_end_x := cd.2.2.2.2
    if tiles_empty.all (fun x => (g.board.get_tile x rank).isNone) ∧
        tiles_not_attacked.all (fun x => ¬ tile_under_attack g x rank piece.color.opposite) then
      [.Castle (4, rank) (king_end_x, rank) (rook_start_x, rank) (rook_end_x, rank)]
    else [])

/-- `Game::gen_pseudo_legal_moves` (the 4-argument free function of
src/chess/game/gen_pseudo_legal_moves.rs): `None` on an empty square;
otherwise the piece's base moves, with the castling block appended for
a king unless `skip_castle` is set. -/
def Game.gen_pseudo_legal_moves (g : Game) (x y : Nat) (skip_castle : Bool) :
    Option (List Move) :=
  match g.board.get_tile x y with
  | none => none
  | some piece =>
    some (base_moves g.board.tiles g.en_passant piece x y ++
      (if piece.piece_type = .King ∧ ¬skip_castle then castle_moves g piece else []))

/-- Whether a move captures a square holding a king: the predicate of
the `any` in `can_capture_king`.  The Rust code unwraps the tile at
the capture square; an emitted capture always targets an occupied
square (a plain occupied tile or the validated en-passant pawn), and
the unwrap-on-empty panic is modelled as `false`. -/
def captures_king (g : Game) : Move → Bool
  | .Capture _ _ c =>
    (match g.board.get_tile c.1 c.2 with
     | some p => p.piece_type = .King
     | none => false)
  | .CapturePromotion _ _ c _ =>
    (match g.board.get_tile c.1 c.2 with
     | some p => p.piece_type = .King
     | none => false)
  | _ => false

/-- `Game::can_capture_king` (src/chess/game/mod.rs lines 236–256):
some pseudo-legal move of `color` (generated through the private
wrapper, i.e. with `skip_castle = false`) captures a king. -/
def Game.can_capture_king (g : Game) (color : Color) : Bool :=
  ((List.range 64).flatMap (fun i =>
    let x := i % 8
    let y := i / 8
    match g.board.get_tile x y with
    | some p =>
      if p.color = color then (g.gen_pseudo_legal_moves x y false).getD [] else []
    | none => [])).any (captures_king g)

/-- The result of a Rust function that may panic instead of
returning. -/
inductive RustOutcome (α : Type) where
  | panicked
  | value (a : α)
deriving DecidableEq, Repr

/-- The legality filter of `Game::gen_moves`: apply the candidate to a
clone and keep it iff afterwards `can_capture_king(turn)` is false
(the turn has flipped, so this asks whether the opponent-turned-mover
can capture the moving side's king). -/
def legal_keep (g : Game) (m : Move) : Bool :=
  let game := (g.apply_move m).1
  ¬ game.can_capture_king game.turn

/-- `Game::gen_moves` (src/chess/game/mod.rs lines 319–352): `None`
for an empty square or an opponent piece; otherwise the pseudo-legal
candidates filtered by the king-safety trial.  The filter `expect`s
each speculative `apply_move` to succeed; a failing application
panics, modelled as `RustOutcome.panicked`. -/
def Game.gen_moves (g : Game) (x y : Nat) : RustOutcome (Option (List Move)) :=
  match g.board.get_tile x y with
  | none => .value none
  | some piece =>
    if piece.color ≠ g.turn then .value none
    else
      match g.gen_pseudo_legal_moves x y false with
      | none => .value none
      | some pseudo =>
        if pseudo.any (fun m => ((g.apply_move m).2).isSome) then .panicked
        else
          let moves := pseudo.filter (legal_keep g)
          .value (if moves.length = 0 then none else some moves)

/-- `Game::gen_all_moves` (src/chess/game/mod.rs lines 290–307):
the concatenation of `gen_moves` over all 64 squares (`None` treated
as empty), `None` when the total is empty; a panic in any square's
`gen_moves` propagates. -/
def Game.gen_all_moves (g : Game) : RustOutcome (Option (List Move)) :=
  if (List.range 64).any (fun i =>
      match g.gen_moves (i % 8) (i / 8) with
      | .panicked => true
      | .value _ => false) then
    .panicked
  else
    let moves := (List.range 64).flatMap (fun i =>
      match g.gen_moves (i % 8) (i / 8) with
      | .value (some l) => l
      | _ => [])
    .value (if moves.length = 0 then none else some moves)

/-! ## The older self-contained design (src/chess/board/mod.rs)

Its generator and attack oracle are mutually recursive with no
`skip_castle` cut: `gen_pseudo_legal_moves` calls `tile_under_attack`
for a king with castling rights, and `tile_under_attack` calls
`gen_pseudo_legal_moves` on every attacking piece of a dummy board —
including kings.  On some inputs the Rust code therefore overflows the
stack; the embedding threads explicit fuel, `Fueled.diverged` marking
a computation that exceeds it (i.e. does not terminate at that
depth). -/

/-- The result of a fuel-bounded computation. -/
inductive Fueled (α : Type) where
  | diverged
  | done (a : α)
deriving DecidableEq, Repr

/-- The `Board` struct of src/chess/board/mod.rs. -/
structure FullBoard where
  tiles : Tiles
  turn : Color
  halfmove : Nat
  fullmove : Nat
  en_passant : Option Square
  white_kingside_castle : Bool
  white_queenside_castle : Bool
  black_kingside_castle : Bool
  black_queenside_castle : Bool
deriving DecidableEq, Repr

/-- `Board::get_tile` (board/mod.rs). -/
def FullBoard.get_tile (b : FullBoard) (x y : Nat) : Option Piece :=
  tileAt b.tiles x y

/-- `Board::set_tile` (board/mod.rs). -/
def FullBoard.set_tile (b : FullBoard) (x y : Nat) (p : Piece) : FullBoard :=
  { b with tiles := tileSet b.tiles x y (some p) }

/-- The direction vectors and depth used by board/mod.rs for each
non-pawn piece kind (lines 647–690; the lists are ordered differently
from the game variant's constants).  `Pawn` is unreachable. -/
def fb_dirs_depth : PieceType → List (Int × Int) × Nat
  | .Rook => ([(-1, 0), (1, 0), (0, -1), (0, 1)], 8)
  | .Bishop => ([(-1, -1), (-1, 1), (1, -1), (1, 1)], 8)
  | .Queen => ([(-1, 0), (1, 0), (0, -1), (0, 1), (-1, -1), (-1, 1), (1, -1), (1, 1)], 8)
  | .Knight => ([(-2, -1), (-2, 1), (-1, -2), (-1, 2), (1, -2), (1, 2), (2, -1), (2, 1)], 1)
  | .King => ([(-1, 0), (1, 0), (0, -1), (0, 1), (-1, -1), (-1, 1), (1, -1), (1, 1)], 1)
  | .Pawn => ([], 0)

/-- The non-castling moves of board/mod.rs's generator (lines
508–730): the same four pawn blocks as the game variant, and the same
ray loop (which always allows quiets and enemy captures). -/
def fb_base_moves (tiles : Tiles) (ep : Option Square) (piece : Piece) (x y : Nat) :
    List Move :=
  if piece.piece_type = .Pawn then pawn_moves tiles ep piece x y
  else
    let dd := fb_dirs_depth piece.piece_type
    dd.1.flatMap (fun d => ray_walk tiles piece x y true true d 1 dd.2)

/-- `!tile_under_attack` over a list of squares with a fixed attacker
color, short-circuiting like the source's `.all`, and propagating
divergence of the oracle. -/
def fb_all_not_attacked (tua : Nat → Nat → Color → Fueled Bool) (color : Color) :
    List Square → Fueled Bool
  | [] => .done true
  | t :: rest =>
    match tua t.1 t.2 color with
    | .diverged => .diverged
    | .done true => .done false
    | .done false => fb_all_not_attacked tua color rest

/-- One castling block of board/mod.rs (lines 736–751 and its three
siblings): the right must be held, the squares after the king's
(`skip(1)`) empty, and all listed squares not attacked by
`attackColor`; only then the Castle move is emitted.  The attack
checks run only when the right and emptiness tests pass (Rust's `&&`
short-circuits). -/
def fb_castle_block (b : FullBoard) (tua : Nat → Nat → Color → Fueled Bool)
    (right : Bool) (tilesList : List Square) (attackColor : Color) (mv : Move) :
    Fueled (List Move) :=
  if right ∧ (tilesList.drop 1).all (fun t => (b.get_tile t.1 t.2).isNone) then
    match fb_all_not_attacked tua attackColor tilesList with
    | .diverged => .diverged
    | .done true => .done [mv]
    | .done false => .done []
  else .done []

/-- Sequencing of two fuel-bounded move lists in source order. -/
def fueledAppend (a b : Fueled (List Move)) : Fueled (List Move) :=
  match a with
  | .diverged => .diverged
  | .done l1 =>
    match b with
    | .diverged => .diverged
    | .done l2 => .done (l1 ++ l2)

/-- The castling section of board/mod.rs's generator (lines 732–808),
queen side before king side for each color.  NOTE (faithful to the
source): the white blocks test attacks by `Color::Black` (the enemy),
but the black blocks ALSO test attacks by `Color::Black` — the
castling side itself — instead of by White. -/
def fb_castle_moves (b : FullBoard) (tua : Nat → Nat → Color → Fueled Bool)
    (piece : Piece) : Fueled (List Move) :=
  if piece.color = .White then
    fueledAppend
      (fb_castle_block b tua b.white_queenside_castle [(4, 7), (3, 7), (2, 7)] .Black
        (.Castle (4, 7) (2, 7) (0, 7) (3, 7)))
      (fb_castle_block b tua b.white_kingside_castle [(4, 7), (5, 7), (6, 7)] .Black
        (.Castle (4, 7) (6, 7) (7, 7) (5, 7)))
  else
    fueledAppend
      (fb_castle_block b tua b.black_queenside_castle [(4, 0), (3, 0), (2, 0)] .Black
        (.Castle (4, 0) (2, 0) (0, 0) (3, 0)))
      (fb_castle_block b tua b.black_kingside_castle [(4, 0), (5, 0), (6, 0)] .Black
        (.Castle (4, 0) (6, 0) (7, 0) (5, 0)))

/-- `Board::gen_pseudo_legal_moves` of board/mod.rs (lines 499–811),
parameterized by the attack oracle it may call: `None` on an empty
square, base moves for the piece, castling section appended for a
king. -/
def fb_gen_aux (tua : Nat → Nat → Color → Fueled Bool) (b : FullBoard) (x y : Nat) :
    Fueled (Option (List Move)) :=
  match b.get_tile x y with
  | none => .done none
  | some piece =>
    let base := fb_base_moves b.tiles b.en_passant piece x y
    if piece.piece_type = .King then
      match fb_castle_moves b tua piece with
      | .diverged => .diverged
      | .done cs => .done (some (base ++ cs))
    else .done (some base)

/-- The piece enumeration of `Board::tile_under_attack` (lines
476–497): walk the 64 squares in index order, generate each
same-colored piece's pseudo-legal moves, short-circuit on the first
capture of the target square, and propagate divergence of a
generation. -/
def fb_scan (gen : Nat → Nat → Fueled (Option (List Move))) (db : FullBoard)
    (tx ty : Nat) (color : Color) : List Nat → Fueled Bool
  | [] => .done false
  | i :: rest =>
    let x := i % 8
    let y := i / 8
    match db.get_tile x y with
    | some p =>
      if p.color = color then
        match gen x y with
        | .diverged => .diverged
        | .done none => fb_scan gen db tx ty color rest
        | .done (some ms) =>
          if ms.any (captures_square (tx, ty)) then .done true
          else fb_scan gen db tx ty color rest
      else fb_scan gen db tx ty color rest
    | none => fb_scan gen db tx ty color rest

/-- `Board::tile_under_attack` of board/mod.rs (lines 455–497),
fuel-bounded: a square holding a piece of the attacking color is never
attacked; an empty square receives a dummy opposing pawn in the
disposable copy; then the attacking color's pseudo-legal moves of the
copy (which again include castling checks — this recursion has no
cut) are scanned for a capture of the square. -/
def FullBoard.tile_under_attack : Nat → FullBoard → Nat → Nat → Color → Fueled Bool
  | 0, _, _, _, _ => .diverged
  | fuel + 1, b, x, y, color =>
    match b.get_tile x y with
    | some piece =>
      if piece.color = color then .done false
      else
        fb_scan (fun px py => fb_gen_aux (FullBoard.tile_under_attack fuel b) b px py)
          b x y color (List.range 64)
    | none =>
      let dummy := b.set_tile x y ⟨.Pawn, color.opposite⟩
      fb_scan (fun px py => fb_gen_aux (FullBoard.tile_under_attack fuel dummy) dummy px py)
        dummy x y color (List.range 64)

/-- `Board::gen_pseudo_legal_moves` of board/mod.rs, fuel-bounded. -/
def FullBoard.gen_pseudo_legal_moves (fuel : Nat) (b : FullBoard) (x y : Nat) :
    Fueled (Option (List Move)) :=
  fb_gen_aux (FullBoard.tile_under_attack fuel b) b x y

/-! ## FEN parsing
(src/chess/board/fen_parser.rs, src/chess/game/fen.rs, src/chess/board.rs) -/

/-- Split a character list at every occurrence of `sep`, keeping empty
segments — the semantics of Rust's `str::split(char)` (and of
`String.splitOn` for a one-character separator, which however does not
reduce in the kernel). -/
def splitChars (sep : Char) : List Char → List (List Char)
  | [] => [[]]
  | c :: rest =>
    match splitChars sep rest with
    | [] => []
    | r :: rs => if c = sep then [] :: r :: rs else (c :: r) :: rs

/-- Rust's `s.split(sep).collect::<Vec<&str>>()`. -/
def rustSplit (sep : Char) (s : String) : List String :=
  (splitChars sep s.data).map String.mk

instance {ε α : Type} [DecidableEq ε] [DecidableEq α] : DecidableEq (Except ε α)
  | .error e1, .error e2 =>
    if h : e1 = e2 then .isTrue (by rw [h])
    else .isFalse (by intro hx; cases hx; exact h rfl)
  | .error _, .ok _ => .isFalse (by intro hx; cases hx)
  | .ok _, .error _ => .isFalse (by intro hx; cases hx)
  | .ok a1, .ok a2 =>
    if h : a1 = a2 then .isTrue (by rw [h])
    else .isFalse (by intro hx; cases hx; exact h rfl)

/-- `ParsePieceError` (src/chess/piece.rs). -/
inductive ParsePieceError where
  | StringTooLong
  | StringEmpty
  | UnknownCharacterPiece
deriving DecidableEq, Repr

/-- `Piece::try_from::<char>` (src/chess/piece.rs): lowercased letter
selects the kind, an ASCII-uppercase input means White. -/
def Piece.try_from (c : Char) : Except ParsePieceError Piece :=
  let pt : Except ParsePieceError PieceType :=
    match c.toLower with
    | 'p' => .ok .Pawn
    | 'n' => .ok .Knight
    | 'b' => .ok .Bishop
    | 'r' => .ok .Rook
    | 'q' => .ok .Queen
    | 'k' => .ok .King
    | _ => .error .UnknownCharacterPiece
  match pt with
  | .error e => .error e
  | .ok piece_type =>
    .ok ⟨piece_type, if c.isUpper then .White else .Black⟩

/-- The FEN error variants (`BoardFromFenError` of board/fen_parser.rs
and the identical `FromFenError` of the game layer), plus
`ParseIntError` for the `std` integer-parse error the halfmove /
fullmove fields propagate boxed, and `ParsePiece` for the
`ParsePieceError` that src/chess/board.rs's placement parser
propagates for an unknown character. -/
inductive FromFenError where
  | IncorrectAmountOfSlash
  | UnknownCharacter
  | IncorrectAmountOfTiles
  | IncorrectAmountOfParts
  | UnknownTurn
  | RepeatingCharactersInCastlingPart
  | IncorrectLength
  | InvalidEnPassant
  | ParseIntError
deriving DecidableEq, Repr

/-- An empty 64-tile array. -/
def blank_tiles : Tiles := List.replicate 64 none

/-- One character of the piece-placement loop, carrying the running
tile index and the tiles: first the row-overrun check
`i >= row_index * 8 + 8`, then a digit advances the index by its
value, any other character must parse as a piece and fills one tile.
(board.rs reports its overrun as `TooManyTiles` and propagates the
piece error raw; board/fen_parser.rs uses `IncorrectAmountOfTiles` /
`UnknownCharacter`.  The embedding uses the latter pair for both.) -/
def placement_char (row_index : Nat) (st : Nat × Tiles) (c : Char) :
    Except FromFenError (Nat × Tiles) :=
  if st.1 ≥ row_index * 8 + 8 then .error .IncorrectAmountOfTiles
  else if c.isDigit then .ok (st.1 + (c.toNat - 48), st.2)
  else
    match Piece.try_from c with
    | .ok p => .ok (st.1 + 1, st.2.set st.1 (some p))
    | .error _ => .error .UnknownCharacter

/-- How many files one placement character accounts for: its value
for a digit, one for a piece letter. -/
def charFiles (c : Char) : Nat := if c.isDigit then c.toNat - 48 else 1

/-- How many files a rank string accounts for. -/
def rank_files (r : String) : Nat := (r.data.map charFiles).sum

/-- The shared row loop of both placement parsers: a single running
index over all rows. -/
def placement_fold (rows : List String) : Except FromFenError (Nat × Tiles) :=
  rows.enum.foldlM
    (fun st ri_row => ri_row.2.data.foldlM (placement_char ri_row.1) st)
    ((0 : Nat), blank_tiles)

/-- `piece_placement_part` (src/chess/board/fen_parser.rs lines
89–125): exactly 8 slash-separated rows, then the character loop, and
finally the total index must be exactly 64. -/
def piecePlacementPart (s : String) : Except FromFenError Tiles :=
  let rows := rustSplit '/' s
  if rows.length ≠ 8 then .error .IncorrectAmountOfSlash
  else
    match placement_fold rows with
    | .error e => .error e
    | .ok st => if st.1 ≠ 64 then .error .IncorrectAmountOfTiles else .ok st.2

/-- `Board::from_fen` of src/chess/board.rs (lines 42–74): the
placement-only parser used by `Game::from_fen` for the first FEN
field.  It runs the same character loop but never checks the row
count. -/
def board_rs_from_fen (fen : String) : Except FromFenError Board :=
  let rows := rustSplit '/' fen
  match placement_fold rows with
  | .error e => .error e
  | .ok st => if st.1 ≠ 64 then .error .IncorrectAmountOfTiles else .ok ⟨st.2⟩

/-- `castling_part` (identical in board/fen_parser.rs and game/fen.rs):
`-` means no rights; otherwise at most 4 pairwise-distinct characters
out of `KQkq`, each setting its flag.  Result order:
(white king side, white queen side, black king side, black queen side). -/
def castlingPart (s : String) : Except FromFenError (Bool × Bool × Bool × Bool) :=
  if s = "-" then .ok (false, false, false, false)
  else
    let chars := s.data
    if chars.length > 4 then .error .IncorrectLength
    else if chars.length ≠ chars.dedup.length then
      .error .RepeatingCharactersInCastlingPart
    else
      chars.foldlM
        (fun (acc : Bool × Bool × Bool × Bool) c =>
          match c with
          | 'K' => .ok (true, acc.2.1, acc.2.2.1, acc.2.2.2)
          | 'Q' => .ok (acc.1, true, acc.2.2.1, acc.2.2.2)
          | 'k' => .ok (acc.1, acc.2.1, true, acc.2.2.2)
          | 'q' => .ok (acc.1, acc.2.1, acc.2.2.1, true)
          | _ => .error .UnknownCharacter)
        (false, false, false, false)

/-- `en_passant` (identical in board/fen_parser.rs and game/fen.rs):
`-` means none; otherwise a file letter and a rank digit, the rank
flipped into the internal upside-down convention (`'8' ↦ 0`, …,
`'1' ↦ 7`). -/
def enPassantPart (s : String) : Except FromFenError (Option Square) :=
  if s = "-" then .ok none
  else
    match s.data with
    | [c0, c1] =>
      let file : Except FromFenError Nat :=
        match c0 with
        | 'a' => .ok 0
        | 'b' => .ok 1
        | 'c' => .ok 2
        | 'd' => .ok 3
        | 'e' => .ok 4
        | 'f' => .ok 5
        | 'g' => .ok 6
        | 'h' => .ok 7
        | _ => .error .UnknownCharacter
      let rank : Except FromFenError Nat :=
        match c1 with
        | '1' => .ok 7
        | '2' => .ok 6
        | '3' => .ok 5
        | '4' => .ok 4
        | '5' => .ok 3
        | '6' => .ok 2
        | '7' => .ok 1
        | '8' => .ok 0
        | _ => .error .UnknownCharacter
      match file, rank with
      | .ok f, .ok r => .ok (some (f, r))
      | .error e, _ => .error e
      | _, .error e => .error e
    | _ => .error .IncorrectAmountOfTiles

/-- `usize` parsing as used for the halfmove / fullmove fields: all
decimal digits, nonempty.  (Rust's `parse::<usize>` additionally
accepts a leading `+` and rejects overflow; neither matters for the
embedded claims.) -/
def parseUsize (s : String) : Option Nat :=
  if s.length ≠ 0 ∧ s.data.all Char.isDigit then
    some (s.data.foldl (fun n c => n * 10 + (c.toNat - 48)) 0)
  else none

/-- `fen_parser` (src/chess/board/fen_parser.rs lines 27–86).  The
source indexes `fen_parts[0]` … `fen_parts[5]` BEFORE checking
`fen_parts.len() != 6`, so an input with fewer than six
space-separated fields panics (out-of-bounds `Vec` index) instead of
reaching the `IncorrectAmountOfParts` return.  The en-passant
validation adjusts the rank into a local (`usize` underflow and
out-of-bounds tile reads panic), but the board STORES the unadjusted
en-passant target square. -/
def fenParser (fen : String) : RustOutcome (Except FromFenError FullBoard) :=
  let fen_parts := rustSplit ' ' fen
  match fen_parts.get? 0, fen_parts.get? 1, fen_parts.get? 2,
      fen_parts.get? 3, fen_parts.get? 4, fen_parts.get? 5 with
  | some p0, some p1, some p2, some p3, some p4, some p5 =>
    if fen_parts.length ≠ 6 then .value (.error .IncorrectAmountOfParts)
    else
      match piecePlacementPart p0 with
      | .error e => .value (.error e)
      | .ok tiles =>
      match (match p1 with
        | "w" => Except.ok Color.White
        | "b" => Except.ok Color.Black
        | _ => Except.error FromFenError.UnknownTurn) with
      | .error e => .value (.error e)
      | .ok turn =>
      match castlingPart p2 with
      | .error e => .value (.error e)
      | .ok castling =>
      match enPassantPart p3 with
      | .error e => .value (.error e)
      | .ok en_passant =>
      match parseUsize p4 with
      | none => .value (.error .ParseIntError)
      | some halfmove =>
      match parseUsize p5 with
      | none => .value (.error .ParseIntError)
      | some fullmove =>
        let mk : RustOutcome (Except FromFenError FullBoard) :=
          .value (.ok ⟨tiles, turn, halfmove, fullmove, en_passant,
            castling.1, castling.2.1, castling.2.2.1, castling.2.2.2⟩)
        match en_passant with
        | some (ep_x, ep_y) =>
          if turn = .Black ∧ ep_y = 0 then .panicked
          else
            let ep_y2 := if turn = .White then ep_y + 1 else ep_y - 1
            if ep_x + ep_y2 * 8 ≥ 64 then .panicked
            else
              match tiles.getD (ep_x + ep_y2 * 8) none with
              | some piece =>
                if piece.piece_type ≠ .Pawn ∨ piece.color = turn then
                  .value (.error .InvalidEnPassant)
                else mk
              | none => .value (.error .InvalidEnPassant)
        | none => mk
  | _, _, _, _, _, _ => .panicked

/-- `Game::from_fen` (src/chess/game/fen.rs lines 22–78).  Like
`fen_parser` it indexes `fen_parts[0]` … `fen_parts[3]` BEFORE the
`fen_parts.len() != 4` check, panicking on fewer than four fields.
The pieces field goes through the placement-only `Board::from_fen` of
src/chess/board.rs.  Unlike `fen_parser`, the shadowing
`let ep_y = …` makes the game store the ADJUSTED en-passant square —
the square of the capturable pawn. -/
def Game.from_fen (fen : String) : RustOutcome (Except FromFenError Game) :=
  let fen_parts := rustSplit ' ' fen
  match fen_parts.get? 0, fen_parts.get? 1, fen_parts.get? 2, fen_parts.get? 3 with
  | some p0, some p1, some p2, some p3 =>
    if fen_parts.length ≠ 4 then .value (.error .IncorrectAmountOfParts)
    else
      match board_rs_from_fen p0 with
      | .error e => .value (.error e)
      | .ok board =>
      match (match p1 with
        | "w" => Except.ok Color.White
        | "b" => Except.ok Color.Black
        | _ => Except.error FromFenError.UnknownTurn) with
      | .error e => .value (.error e)
      | .ok turn =>
      match castlingPart p2 with
      | .error e => .value (.error e)
      | .ok castling =>
      match enPassantPart p3 with
      | .error e => .value (.error e)
      | .ok en_passant =>
        let mk : Option Square → RustOutcome (Except FromFenError Game) :=
          fun ep => .value (.ok ⟨board, turn, ep,
            castling.1, castling.2.1, castling.2.2.1, castling.2.2.2⟩)
        match en_passant with
        | some (ep_x, ep_y) =>
          if turn = .Black ∧ ep_y = 0 then .panicked
          else
            let ep_y2 := if turn = .White then ep_y + 1 else ep_y - 1
            if ep_x > 7 ∨ ep_y2 > 7 then .panicked
            else
              match board.get_tile ep_x ep_y2 with
              | some piece =>
                if piece.piece_type ≠ .Pawn ∨ piece.color = turn then
                  .value (.error .InvalidEnPassant)
                else mk (some (ep_x, ep_y2))
              | none => .value (.error .InvalidEnPassant)
        | none => mk none
  | _, _, _, _ => .panicked

/-! ## Concrete positions used by the theorems below -/

/-- White king a1 = (0,7), black king h8 = (7,0), White to move, no
castling rights. -/
def kkGame : Game :=
  ⟨⟨(blank_tiles.set 7 (some ⟨.King, .Black⟩)).set 56 (some ⟨.King, .White⟩)⟩,
    .White, none, false, false, false, false⟩

/-- Black bishop e8 = (4,0), black king (0,3), white rook f1 = (5,7)
attacking f8 = (5,0); Black holds only the king-side castling right. -/
def c2Board : FullBoard :=
  ⟨((blank_tiles.set 4 (some ⟨.Bishop, .Black⟩)).set 24 (some ⟨.King, .Black⟩)).set 61
      (some ⟨.Rook, .White⟩),
    .Black, 0, 1, none, false, false, true, false⟩

/-- The same position as a `Game` (the final design). -/
def c2Game : Game := ⟨⟨c2Board.tiles⟩, .Black, none, false, false, true, false⟩

/-- A position after Black's double push d7–d5, en-passant target d6. -/
def epFen : String := "rnbqkbnr/ppp1pppp/8/3p4/8/8/PPPPPPPP/RNBQKBNR w KQkq d6 0 1"

/-- The same position as a 4-field game FEN. -/
def epFenGame : String := "rnbqkbnr/ppp1pppp/8/3p4/8/8/PPPPPPPP/RNBQKBNR w KQkq d6"

/-- A lone white knight on the corner a1 = (0,7), with the white
queen-side castling right still held. -/
def knightGame : Game :=
  ⟨⟨blank_tiles.set 56 (some ⟨.Knight, .White⟩)⟩, .White, none, false, true, false, false⟩

/-- A lone white bishop on (3,3), all four castling rights held. -/
def bishopGame : Game :=
  ⟨⟨blank_tiles.set 27 (some ⟨.Bishop, .White⟩)⟩, .White, none, true, true, true, true⟩

/-- A black pawn on (3,4) with the en-passant field set to its square. -/
def epGame : Game :=
  ⟨⟨blank_tiles.set 35 (some ⟨.Pawn, .Black⟩)⟩, .White, some (3, 4), false, false, false, false⟩

/-- A white rook on (0,0) with a black pawn three squares down the
file at (0,3). -/
def rookGame : Game :=
  ⟨⟨(blank_tiles.set 0 (some ⟨.Rook, .White⟩)).set 24 (some ⟨.Pawn, .Black⟩)⟩,
    .White, none, false, false, false, false⟩

/-- A lone white pawn on e7 = (4,1). -/
def pawnGame : Game :=
  ⟨⟨blank_tiles.set 12 (some ⟨.Pawn, .White⟩)⟩, .White, none, false, false, false, false⟩

/-! ## Claim theorems -/

/-- C2: in the older design (src/chess/board/mod.rs lines 771–807),
the black castling blocks pass `Color::Black` — the castling side
itself — to `tile_under_attack`, so enemy attacks are never consulted:
on `c2Board`, the generator emits the black king-side Castle move even
though the transit square f8 = (5,0) is attacked by the white rook
(third conjunct, checked with the attack oracle and the correct
attacker color), the right is held and the in-between squares are
empty.  The final design (`Game`, which passes
`piece.color.opposite()`) emits no Castle move on the same position
(last conjunct). -/
theorem board_black_castle_ignores_enemy_attack :
    FullBoard.gen_pseudo_legal_moves 5 c2Board 0 3 = .done (some
      [.Quiet (0, 3) (1, 3), .Quiet (0, 3) (0, 2), .Quiet (0, 3) (0, 4),
       .Quiet (0, 3) (1, 2), .Quiet (0, 3) (1, 4),
       .Castle (4, 0) (6, 0) (7, 0) (5, 0)]) ∧
    c2Board.black_kingside_castle = true ∧
    c2Board.get_tile 5 0 = none ∧ c2Board.get_tile 6 0 = none ∧
    FullBoard.tile_under_attack 5 c2Board 5 0 .White = .done true ∧
    c2Game.gen_pseudo_legal_moves 0 3 false = some
      [.Quiet (0, 3) (1, 3), .Quiet (0, 3) (0, 4), .Quiet (0, 3) (0, 2),
       .Quiet (0, 3) (1, 4), .Quiet (0, 3) (1, 2)] := by
  decide

/-- C3: on a position where Black just double-pushed d7–d5 (en-passant
target d6), `fen_parser` of src/chess/board/fen_parser.rs stores the
en-passant TARGET square d6 = (3,2) — which is empty — although the
capturable pawn sits on d5 = (3,3) and the code's own comment says the
pawn's square is stored.  The later `Game::from_fen`
(src/chess/game/fen.rs) stores the pawn square (3,3) for the same
position. -/
theorem fen_parser_stores_en_passant_target :
    (match fenParser epFen with
      | .value (.ok b) => b.en_passant
      | _ => none) = some (3, 2) ∧
    (match fenParser epFen with
      | .value (.ok b) => b.get_tile 3 2
      | _ => none) = none ∧
    (match fenParser epFen with
      | .value (.ok b) => b.get_tile 3 3
      | _ => none) = some ⟨.Pawn, .Black⟩ ∧
    (match Game.from_fen epFenGame with
      | .value (.ok g) => g.en_passant
      | _ => none) = some (3, 3) := by
  decide

/-- C4: both FEN front ends index the space-separated fields before
checking their number, so an input with fewer fields than expected
panics (out-of-bounds `Vec` index) instead of returning
`IncorrectAmountOfParts`; only an input with MORE fields than expected
reaches that error. -/
theorem from_fen_wrong_field_count_panics :
    Game.from_fen "8/8/8/8/8/8/8/8 w -" = .panicked ∧
    fenParser "8/8/8/8/8/8/8/8 w KQkq - 0" = .panicked ∧
    Game.from_fen "" = .panicked ∧
    Game.from_fen "a b c d e" = .value (.error .IncorrectAmountOfParts) ∧
    fenParser "a b c d e f g" = .value (.error .IncorrectAmountOfParts) := by
  decide

/-- C5 (counterexample): the placement parser keeps one running index
across all ranks, so a rank accounting for 7 files followed by a rank
accounting for 9 is accepted (the per-rank overrun check fires only at
a character boundary within the same rank): `"7/9/8/8/8/8/8/8"`
parses successfully although its first rank accounts for 7 ≠ 8
files. -/
theorem piece_placement_rank_deficit_accepted :
    piecePlacementPart "7/9/8/8/8/8/8/8" = .ok blank_tiles ∧
    (rustSplit '/' "7/9/8/8/8/8/8/8").get? 0 = some "7" ∧
    rank_files "7" = 7 := by
  decide

/-- C8 (counterexample): the Quiet arm of `Game::apply_move` revokes a
castling right for ANY move leaving a corner square — the source
comment says "No need to check that the move was actually a rook".  A
knight moving from a1 = (0,7) therefore clears the white queen-side
right, although the mover is neither a king nor a rook. -/
theorem quiet_corner_knight_revokes_right :
    knightGame.board.get_tile 0 7 = some ⟨.Knight, .White⟩ ∧
    knightGame.white_queenside_castle = true ∧
    (knightGame.apply_move (.Quiet (0, 7) (2, 6))).2 = none ∧
    (knightGame.apply_move (.Quiet (0, 7) (2, 6))).1.white_queenside_castle = false := by
  decide

/-- Every arm of the `apply_move` dispatch performs its mutations
strictly after its error checks: an early error return hands back the
state unchanged. -/
lemma apply_move_inner_error_fst (g : Game) (m : Move) (e : GameApplyMoveError)
    (h : (g.apply_move_inner m).2 = some e) : (g.apply_move_inner m).1 = g := by
  cases m with
  | Quiet f t =>
    simp only [Game.apply_move_inner] at h ⊢
    cases hg : g.board.get_tile f.1 f.2
    · rfl
    · simp [hg] at h
  | Capture f t c =>
    simp only [Game.apply_move_inner] at h ⊢
    cases hg : g.board.get_tile f.1 f.2
    · rfl
    · simp [hg] at h
  | Castle f t rf rt =>
    simp only [Game.apply_move_inner] at h ⊢
    cases hg : g.board.get_tile f.1 f.2
    · rfl
    · cases hr : g.board.get_tile rf.1 rf.2
      · simp [hg, hr] at h ⊢
      · simp [hg, hr] at h
  | QuietPromotion f t p =>
    simp only [Game.apply_move_inner] at h ⊢
    cases hg : g.board.get_tile f.1 f.2
    · rfl
    · simp [hg] at h
  | CapturePromotion f t c p =>
    simp only [Game.apply_move_inner] at h ⊢
    cases hg : g.board.get_tile f.1 f.2
    · rfl
    · simp [hg] at h

/-- C10: when `apply_move` returns an error, the tiles, the turn and
all four castling-rights flags are those of the input position, but
the `en_passant` field has already been cleared (the clear happens
unconditionally before the dispatch, the error checks before any
other mutation, and the turn flip only on success) — so a failed
`apply_move` is exactly the input with `en_passant := none`, not a
complete no-op. -/
theorem apply_move_error_leaves_state_except_en_passant (g : Game) (m : Move)
    (e : GameApplyMoveError) (h : (g.apply_move m).2 = some e) :
    (g.apply_move m).1 = { g with en_passant := none } := by
  unfold Game.apply_move at h ⊢
  rcases hi : ({ g with en_passant := none } : Game).apply_move_inner m with ⟨g1, o⟩
  cases o with
  | none =>
    rw [hi] at h
    exact Option.noConfusion h
  | some e2 =>
    have h2 := apply_move_inner_error_fst { g with en_passant := none } m e2 (by rw [hi])
    rw [hi] at h2
    exact h2

/-- Witness for C10: on `epGame` (whose en-passant field is set), the
Quiet move from the empty square (4,4) fails with `InvalidMove`, and
the resulting state is `epGame` with only the en-passant field
cleared — in particular it differs from `epGame`. -/
theorem apply_move_error_leaves_state_except_en_passant_witness :
    (epGame.apply_move (.Quiet (4, 4) (4, 3))).2 = some .InvalidMove ∧
    (epGame.apply_move (.Quiet (4, 4) (4, 3))).1 = { epGame with en_passant := none } ∧
    epGame.en_passant = some (3, 4) := by
  refine ⟨by decide, ?_, by decide⟩
  exact apply_move_error_leaves_state_except_en_passant epGame (.Quiet (4, 4) (4, 3))
    .InvalidMove (by decide)

/-- C8 (amended): a successful Quiet `apply_move` whose moving piece
is neither a king nor a rook leaves all four castling-rights flags
unchanged PROVIDED the from square is none of the four corner squares;
(the corner revocation of the Quiet arm fires for any piece kind, see
the counterexample). -/
theorem quiet_noncorner_preserves_castling_rights (g : Game) (f t : Square)
    (piece : Piece)
    (hp : g.board.get_tile f.1 f.2 = some piece)
    (hking : piece.piece_type ≠ .King) (hrook : piece.piece_type ≠ .Rook)
    (h1 : f ≠ (0, 7)) (h2 : f ≠ (7, 7)) (h3 : f ≠ (0, 0)) (h4 : f ≠ (7, 0)) :
    (g.apply_move (.Quiet f t)).2 = none ∧
    (g.apply_move (.Quiet f t)).1.white_kingside_castle = g.white_kingside_castle ∧
    (g.apply_move (.Quiet f t)).1.white_queenside_castle = g.white_queenside_castle ∧
    (g.apply_move (.Quiet f t)).1.black_kingside_castle = g.black_kingside_castle ∧
    (g.apply_move (.Quiet f t)).1.black_queenside_castle = g.black_queenside_castle := by
  simp only [Game.apply_move, Game.apply_move_inner, hp]
  rw [if_neg hking]
  unfold revokeCornerFrom
  rw [if_neg h1, if_neg h2, if_neg h3, if_neg h4]
  by_cases hpawn : piece.piece_type = .Pawn ∧ ((f.2 : Int) - (t.2 : Int)).natAbs = 2
  · rw [if_pos hpawn]
    refine ⟨?_, ?_, ?_, ?_, ?_⟩ <;> trivial
  · rw [if_neg hpawn]
    refine ⟨?_, ?_, ?_, ?_, ?_⟩ <;> trivial

/-- Witness for the amended C8: the bishop move (3,3)→(4,4) on
`bishopGame` (all four rights held) succeeds and keeps every flag. -/
theorem quiet_noncorner_preserves_castling_rights_witness :
    (bishopGame.apply_move (.Quiet (3, 3) (4, 4))).2 = none ∧
    (bishopGame.apply_move (.Quiet (3, 3) (4, 4))).1.white_kingside_castle =
      bishopGame.white_kingside_castle ∧
    (bishopGame.apply_move (.Quiet (3, 3) (4, 4))).1.white_queenside_castle =
      bishopGame.white_queenside_castle ∧
    (bishopGame.apply_move (.Quiet (3, 3) (4, 4))).1.black_kingside_castle =
      bishopGame.black_kingside_castle ∧
    (bishopGame.apply_move (.Quiet (3, 3) (4, 4))).1.black_queenside_castle =
      bishopGame.black_queenside_castle :=
  quiet_noncorner_preserves_castling_rights bishopGame (3, 3) (4, 4)
    ⟨.Bishop, .White⟩ (by decide) (by decide) (by decide)
    (by decide) (by decide) (by decide) (by decide)

/-- C7: for a white pawn on internal rank 1 (FEN rank 7) whose forward
square on the final rank is empty, the forward-push block of the
pseudo-legal generator produces exactly the four promotion moves, in
source order queen, rook, bishop, knight — and hence never a plain
Quiet move to the final rank. -/
theorem white_pawn_forward_push_promotes (g : Game) (x : Nat) (piece : Piece)
    (hx : x ≤ 7) (hpiece : piece = ⟨.Pawn, .White⟩)
    (hp : g.board.get_tile x 1 = some piece)
    (he : g.board.get_tile x 0 = none) :
    pawn_forward g.board.tiles piece x 1 =
      [.QuietPromotion (x, 1) (x, 0) .Queen, .QuietPromotion (x, 1) (x, 0) .Rook,
       .QuietPromotion (x, 1) (x, 0) .Bishop, .QuietPromotion (x, 1) (x, 0) .Knight] ∧
    ∀ t, Move.Quiet (x, 1) t ∉ pawn_forward g.board.tiles piece x 1 := by
  subst hpiece
  have he0 : tileAt g.board.tiles x 0 = none := he
  have hmain : pawn_forward g.board.tiles ⟨.Pawn, .White⟩ x 1 =
      [.QuietPromotion (x, 1) (x, 0) .Queen, .QuietPromotion (x, 1) (x, 0) .Rook,
       .QuietPromotion (x, 1) (x, 0) .Bishop, .QuietPromotion (x, 1) (x, 0) .Knight] := by
    unfold pawn_forward
    simp only [pawn_dir, pawn_final_rank, promotion_pieces]
    norm_num
    rw [he0]
  refine ⟨hmain, ?_⟩
  intro t
  rw [hmain]
  simp

/-- Witness for C7: the pawn on e7 = (4,1) of `pawnGame`. -/
theorem white_pawn_forward_push_promotes_witness :
    pawn_forward pawnGame.board.tiles ⟨.Pawn, .White⟩ 4 1 =
      [.QuietPromotion (4, 1) (4, 0) .Queen, .QuietPromotion (4, 1) (4, 0) .Rook,
       .QuietPromotion (4, 1) (4, 0) .Bishop, .QuietPromotion (4, 1) (4, 0) .Knight] ∧
    ∀ t, Move.Quiet (4, 1) t ∉ pawn_forward pawnGame.board.tiles ⟨.Pawn, .White⟩ 4 1 :=
  white_pawn_forward_push_promotes pawnGame 4 ⟨.Pawn, .White⟩ (by decide) rfl
    (by decide) (by decide)

/-- The ray loop emits only Quiet and Capture moves. -/
lemma ray_walk_is_castle (tiles : Tiles) (piece : Piece) (x y : Nat) (q c : Bool)
    (d : Int × Int) :
    ∀ (r i : Nat) (m : Move), m ∈ ray_walk tiles piece x y q c d i r →
      m.is_castle = false := by
  intro r
  induction r with
  | zero => intro i m hm; simp [ray_walk] at hm
  | succ r ih =>
    intro i m hm
    simp only [ray_walk] at hm
    split at hm
    · simp at hm
    · split at hm
      · split at hm
        · simp at hm; subst hm; rfl
        · simp at hm
      · rcases List.mem_append.mp hm with h1 | h2
        · split at h1
          · simp at h1; subst h1; rfl
          · simp at h1
        · exact ih _ _ h2

/-- The forward-push pawn block emits only Quiet and QuietPromotion
moves. -/
lemma pawn_forward_is_castle (tiles : Tiles) (piece : Piece) (x y : Nat) (m : Move)
    (hm : m ∈ pawn_forward tiles piece x y) : m.is_castle = false := by
  unfold pawn_forward at hm
  dsimp only at hm
  split at hm
  · split at hm
    · split at hm
      · simp [List.mem_map] at hm
        obtain ⟨p, _, rfl⟩ := hm
        rfl
      · simp at hm; subst hm; rfl
    · simp at hm
  · simp at hm

/-- The double-push pawn block emits only Quiet moves. -/
lemma pawn_double_is_castle (tiles : Tiles) (piece : Piece) (x y : Nat) (m : Move)
    (hm : m ∈ pawn_double tiles piece x y) : m.is_castle = false := by
  unfold pawn_double at hm
  dsimp only at hm
  split at hm
  · split at hm
    · simp at hm; subst hm; rfl
    · simp at hm
  · simp at hm

/-- The diagonal-capture pawn block emits only Capture and
CapturePromotion moves. -/
lemma pawn_captures_is_castle (tiles : Tiles) (piece : Piece) (x y : Nat) (m : Move)
    (hm : m ∈ pawn_captures tiles piece x y) : m.is_castle = false := by
  unfold pawn_captures at hm
  rcases List.mem_flatMap.mp hm with ⟨xd, _, hm1⟩
  dsimp only at hm1
  split at hm1
  · split at hm1
    · split at hm1
      · split at hm1
        · simp [List.mem_map] at hm1
          obtain ⟨p, _, rfl⟩ := hm1
          rfl
        · simp at hm1; subst hm1; rfl
      · simp at hm1
    · simp at hm1
  · simp at hm1

/-- The en-passant pawn block emits only Capture moves. -/
lemma pawn_en_passant_is_castle (tiles : Tiles) (ep : Option Square) (piece : Piece)
    (x y : Nat) (m : Move) (hm : m ∈ pawn_en_passant tiles ep piece x y) :
    m.is_castle = false := by
  unfold pawn_en_passant at hm
  split at hm
  · rcases List.mem_flatMap.mp hm with ⟨xd, _, hm1⟩
    dsimp only at hm1
    split at hm1
    · split at hm1
      · simp at hm1; subst hm1; rfl
      · simp at hm1
    · simp at hm1
  · simp at hm

/-- The non-castling move generation never emits a Castle move. -/
lemma base_moves_is_castle (tiles : Tiles) (ep : Option Square) (piece : Piece)
    (x y : Nat) (m : Move) (hm : m ∈ base_moves tiles ep piece x y) :
    m.is_castle = false := by
  unfold base_moves at hm
  split at hm
  · unfold pawn_moves at hm
    rcases List.mem_append.mp hm with hm1 | hm1
    rcases List.mem_append.mp hm1 with hm2 | hm2
    rcases List.mem_append.mp hm2 with hm3 | hm3
    · exact pawn_forward_is_castle tiles piece x y m hm3
    · exact pawn_double_is_castle tiles piece x y m hm3
    · exact pawn_captures_is_castle tiles piece x y m hm2
    · exact pawn_en_passant_is_castle tiles ep piece x y m hm1
  · unfold search_moves at hm
    rcases List.mem_flatMap.mp hm with ⟨d, _, hmd⟩
    exact ray_walk_is_castle tiles piece x y _ _ d _ _ m hmd

/-- With `skip_castle = true` the generator is exactly the base
(oracle-free) generation: the castling section contributes nothing. -/
lemma gen_pseudo_skip_eq_base (g : Game) (x y : Nat) :
    g.gen_pseudo_legal_moves x y true =
      (g.board.get_tile x y).map
        (fun piece => base_moves g.board.tiles g.en_passant piece x y) := by
  unfold Game.gen_pseudo_legal_moves
  cases hg : g.board.get_tile x y
  · rfl
  · simp

/-- C9: called with `skip_castle = true`, the pseudo-legal generator
coincides with `base_moves` — a function that makes no reference to
the attack oracle `tile_under_attack` — and never emits a Castle
move.  `tile_under_attack` itself enumerates attacker moves through
exactly this `skip_castle = true` instance, so the explicit cut makes
the oracle a total (terminating) function: both `tile_under_attack`
and `Game.gen_pseudo_legal_moves` are accepted by Lean as structurally
terminating definitions with no fuel, unlike the cut-free
`FullBoard` variant. -/
theorem skip_castle_is_oracle_free (g : Game) (x y : Nat) :
    g.gen_pseudo_legal_moves x y true =
      (g.board.get_tile x y).map
        (fun piece => base_moves g.board.tiles g.en_passant piece x y) ∧
    ∀ (ms : List Move) (m : Move), g.gen_pseudo_legal_moves x y true = some ms →
      m ∈ ms → m.is_castle = false := by
  refine ⟨gen_pseudo_skip_eq_base g x y, ?_⟩
  intro ms m hms hm
  rw [gen_pseudo_skip_eq_base] at hms
  cases hg : g.board.get_tile x y <;> rw [hg] at hms
  · exact Option.noConfusion hms
  · have h2 := Option.some.inj hms
    rw [← h2] at hm
    exact base_moves_is_castle _ _ _ x y m hm

/-- Witness for C9: the white king square of `kkGame`. -/
theorem skip_castle_is_oracle_free_witness :
    kkGame.gen_pseudo_legal_moves 0 7 true =
      (kkGame.board.get_tile 0 7).map
        (fun piece => base_moves kkGame.board.tiles kkGame.en_passant piece 0 7) ∧
    kkGame.gen_pseudo_legal_moves 0 7 true =
      some [.Quiet (0, 7) (1, 7), .Quiet (0, 7) (0, 6), .Quiet (0, 7) (1, 6)] ∧
    Move.is_castle (.Quiet (0, 7) (1, 7)) = false :=
  ⟨(skip_castle_is_oracle_free kkGame 0 7).1, by decide,
    (skip_castle_is_oracle_free kkGame 0 7).2
      [.Quiet (0, 7) (1, 7), .Quiet (0, 7) (0, 6), .Quiet (0, 7) (1, 6)]
      (.Quiet (0, 7) (1, 7)) (by decide) (by decide)⟩

/-- A successful placement step advances the running index by the
number of files the character accounts for. -/
lemma placement_char_files (ri : Nat) (st st2 : Nat × Tiles) (c : Char)
    (h : placement_char ri st c = .ok st2) : st2.1 = st.1 + charFiles c := by
  unfold placement_char at h
  split at h
  · exact Except.noConfusion h
  · split at h
    · cases h
      simp [charFiles, *]
    · split at h
      · cases h
        simp only [charFiles]
        rw [if_neg (by assumption)]
      · exact Except.noConfusion h

/-- A successful row fold advances the running index by the row's
file account. -/
lemma chars_fold_files (ri : Nat) :
    ∀ (cs : List Char) (st st2 : Nat × Tiles),
      cs.foldlM (placement_char ri) st = .ok st2 →
      st2.1 = st.1 + (cs.map charFiles).sum := by
  intro cs
  induction cs with
  | nil => intro st st2 h; cases h; simp
  | cons c cs ih =>
    intro st st2 h
    rw [List.foldlM_cons] at h
    cases h1 : placement_char ri st c with
    | error e => rw [h1] at h; exact Except.noConfusion h
    | ok st1 =>
      rw [h1] at h
      have h2 := ih st1 st2 h
      have h3 := placement_char_files ri st st1 c h1
      simp [h2, h3]
      omega

/-- A successful fold over all rows advances the running index by the
total file account. -/
lemma rows_fold_files :
    ∀ (l : List (Nat × String)) (st st2 : Nat × Tiles),
      l.foldlM (fun st p => p.2.data.foldlM (placement_char p.1) st) st = .ok st2 →
      st2.1 = st.1 + (l.map (fun p => rank_files p.2)).sum := by
  intro l
  induction l with
  | nil => intro st st2 h; cases h; simp
  | cons p l ih =>
    intro st st2 h
    rw [List.foldlM_cons] at h
    cases h1 : p.2.data.foldlM (placement_char p.1) st with
    | error e => rw [h1] at h; exact Except.noConfusion h
    | ok st1 =>
      rw [h1] at h
      have h2 := ih st1 st2 h
      have h3 := chars_fold_files p.1 p.2.data st st1 h1
      simp only [rank_files, List.map_cons, List.sum_cons] at h2 h3 ⊢
      omega

/-- C5 (amended): a successful parse of the piece-placement field
requires exactly 8 slash-separated ranks and file accounts summing to
exactly 64 over the whole field; per-rank exactness is NOT enforced —
a rank accounting for fewer than 8 files is accepted when a later
rank over-accounts to compensate (see the counterexample
`7/9/8/8/8/8/8/8`). -/
theorem piece_placement_success_requires_8_rows_64_files (s : String) (t : Tiles)
    (h : piecePlacementPart s = .ok t) :
    (rustSplit '/' s).length = 8 ∧
    ((rustSplit '/' s).map rank_files).sum = 64 := by
  unfold piecePlacementPart at h
  dsimp only at h
  split at h
  · exact Except.noConfusion h
  · refine ⟨by omega, ?_⟩
    unfold placement_fold at h
    split at h
    · exact Except.noConfusion h
    · rename_i st hfold
      split at h
      · exact Except.noConfusion h
      · have hsum := rows_fold_files (rustSplit '/' s).enum (0, blank_tiles) st hfold
        have hmap : ((rustSplit '/' s).enum.map (fun p => rank_files p.2)) =
            (rustSplit '/' s).map rank_files := by
          rw [show (fun p : Nat × String => rank_files p.2) =
            (rank_files ∘ Prod.snd) from rfl, ← List.map_map, List.enum_map_snd]
        rw [hmap] at hsum
        omega

/-- Witness for the amended C5: the all-empty placement field. -/
theorem piece_placement_success_requires_8_rows_64_files_witness :
    piecePlacementPart "8/8/8/8/8/8/8/8" = .ok blank_tiles ∧
    ((rustSplit '/' "8/8/8/8/8/8/8/8").length = 8 ∧
      ((rustSplit '/' "8/8/8/8/8/8/8/8").map rank_files).sum = 64) :=
  ⟨by decide,
    piece_placement_success_requires_8_rows_64_files "8/8/8/8/8/8/8/8" blank_tiles
      (by decide)⟩

lemma revokeKingRights_turn (g : Game) (c : Color) :
    (revokeKingRights g c).turn = g.turn := by
  unfold revokeKingRights; split <;> rfl

lemma revokeCornerFrom_turn (g : Game) (f : Square) :
    (revokeCornerFrom g f).turn = g.turn := by
  unfold revokeCornerFrom; split_ifs <;> rfl

lemma revokeRookFrom_turn (g : Game) (piece : Piece) (f : Square) :
    (revokeRookFrom g piece f).turn = g.turn := by
  unfold revokeRookFrom; split_ifs <;> rfl

lemma revokeCaptured_turn (g : Game) (c : Color) (sq : Square) :
    (revokeCaptured g c sq).turn = g.turn := by
  unfold revokeCaptured; split_ifs <;> rfl

/-- No arm of the `apply_move` dispatch touches the turn; the flip
happens only afterwards, on success. -/
lemma apply_move_inner_turn (g : Game) (m : Move) :
    ((g.apply_move_inner m).1).turn = g.turn := by
  cases m with
  | Quiet f t =>
    simp only [Game.apply_move_inner]
    cases hg : g.board.get_tile f.1 f.2
    · rfl
    · show (revokeCornerFrom _ f).turn = g.turn
      rw [revokeCornerFrom_turn]
      split_ifs <;> simp [revokeKingRights_turn]
  | Capture f t c =>
    simp only [Game.apply_move_inner]
    cases hg : g.board.get_tile f.1 f.2
    · rfl
    · show (match (revokeRookFrom _ _ f).board.get_tile c.1 c.2 with
        | some captured => revokeCaptured _ captured.color c
        | none => revokeRookFrom _ _ f).turn = g.turn
      split
      · rw [revokeCaptured_turn, revokeRookFrom_turn]
        split_ifs <;> first | rw [revokeKingRights_turn] | rfl
      · rw [revokeRookFrom_turn]
        split_ifs <;> first | rw [revokeKingRights_turn] | rfl
  | Castle f t rf rt =>
    simp only [Game.apply_move_inner]
    cases hg : g.board.get_tile f.1 f.2
    · rfl
    · cases hr : g.board.get_tile rf.1 rf.2
      · rfl
      · exact revokeKingRights_turn g _
  | QuietPromotion f t p =>
    simp only [Game.apply_move_inner]
    cases hg : g.board.get_tile f.1 f.2
    · rfl
    · rfl
  | CapturePromotion f t c p =>
    simp only [Game.apply_move_inner]
    cases hg : g.board.get_tile f.1 f.2
    · rfl
    · show (match g.board.get_tile c.1 c.2 with
        | some captured => revokeCaptured _ captured.color c
        | none => _).turn = g.turn
      split
      · rw [revokeCaptured_turn]
      · rfl

/-- A successful `apply_move` flips the turn exactly once. -/
lemma apply_move_ok_turn (g : Game) (m : Move) (h : (g.apply_move m).2 = none) :
    ((g.apply_move m).1).turn = g.turn.opposite := by
  unfold Game.apply_move at h ⊢
  rcases hi : ({ g with en_passant := none } : Game).apply_move_inner m with ⟨g1, o⟩
  cases o with
  | none =>
    have ht := apply_move_inner_turn { g with en_passant := none } m
    rw [hi] at ht
    exact congrArg Color.opposite ht
  | some e =>
    rw [hi] at h
    exact Option.noConfusion h

/-- Inversion of `Game::gen_moves`: a returned move survived both the
speculative application (no panic) and the king-safety filter. -/
lemma gen_moves_mem (g : Game) (x y : Nat) (ms : List Move) (m : Move)
    (h : g.gen_moves x y = .value (some ms)) (hm : m ∈ ms) :
    (g.apply_move m).2 = none ∧ legal_keep g m = true := by
  unfold Game.gen_moves at h
  split at h
  · simp at h
  · split at h
    · simp at h
    · split at h
      · simp at h
      · rename_i piece hcolor pseudo hpseudo
        split at h
        · simp at h
        · rename_i hnopanic
          rw [RustOutcome.value.injEq] at h
          split at h
          · simp at h
          · rw [Option.some.injEq] at h
            subst h
            refine ⟨?_, (List.mem_filter.mp hm).2⟩
            have hmem : m ∈ pseudo := List.mem_of_mem_filter hm
            have hfalse : ¬ (((g.apply_move m).2).isSome = true) := by
              intro hsome
              exact hnopanic (List.any_eq_true.mpr ⟨m, hmem, hsome⟩)
            exact Option.not_isSome_iff_eq_none.mp hfalse

/-- C1: every move returned by `Game::gen_moves` (and hence every move
of `Game::gen_all_moves`) applies successfully, flips the turn, and
leaves a position in which `can_capture_king(turn)` — the
opponent-turned-mover capturing the moving side's king — is false:
the legal-move filter keeps exactly the candidates surviving this
trial on a cloned position. -/
theorem gen_moves_never_leaves_king_capturable (g : Game) (x y : Nat)
    (ms : List Move) (m : Move)
    (h : g.gen_moves x y = .value (some ms) ∨ g.gen_all_moves = .value (some ms))
    (hm : m ∈ ms) :
    (g.apply_move m).2 = none ∧
    ((g.apply_move m).1).turn = g.turn.opposite ∧
    ((g.apply_move m).1).can_capture_king ((g.apply_move m).1).turn = false := by
  have key : (g.apply_move m).2 = none ∧ legal_keep g m = true := by
    rcases h with h | h
    · exact gen_moves_mem g x y ms m h hm
    · unfold Game.gen_all_moves at h
      split at h
      · simp at h
      · rw [RustOutcome.value.injEq] at h
        split at h
        · simp at h
        · rw [Option.some.injEq] at h
          subst h
          rcases List.mem_flatMap.mp hm with ⟨i, hi, hmi⟩
          rcases hq : g.gen_moves (i % 8) (i / 8) with _ | o
          · rw [hq] at hmi; simp at hmi
          · rcases o with _ | l
            · rw [hq] at hmi; simp at hmi
            · rw [hq] at hmi
              exact gen_moves_mem g (i % 8) (i / 8) l m hq hmi
  refine ⟨key.1, apply_move_ok_turn g m key.1, ?_⟩
  have hk := key.2
  unfold legal_keep at hk
  simpa using hk

/-- Witness for C1: the white king of `kkGame` has three legal moves;
the first one applies successfully, flips the turn to Black and leaves
Black unable to capture the white king. -/
theorem gen_moves_never_leaves_king_capturable_witness :
    kkGame.gen_moves 0 7 = .value (some
      [.Quiet (0, 7) (1, 7), .Quiet (0, 7) (0, 6), .Quiet (0, 7) (1, 6)]) ∧
    ((kkGame.apply_move (.Quiet (0, 7) (1, 7))).2 = none ∧
      ((kkGame.apply_move (.Quiet (0, 7) (1, 7))).1).turn = kkGame.turn.opposite ∧
      ((kkGame.apply_move (.Quiet (0, 7) (1, 7))).1).can_capture_king
        ((kkGame.apply_move (.Quiet (0, 7) (1, 7))).1).turn = false) :=
  ⟨by decide,
    gen_moves_never_leaves_king_capturable kkGame 0 7
      [.Quiet (0, 7) (1, 7), .Quiet (0, 7) (0, 6), .Quiet (0, 7) (1, 6)]
      (.Quiet (0, 7) (1, 7)) (Or.inl (by decide)) (by decide)⟩

/-- Membership characterization of the ray loop: starting at step `i`
with everything strictly before `i` on-board and empty, every emitted
move sits at some step `k` in `[i, i + r)`, on the board, with every
strictly earlier step on-board and empty, and is a Quiet move to an
empty square or a Capture of an enemy piece there. -/
lemma ray_walk_mem_spec (tiles : Tiles) (piece : Piece) (x y : Nat) (q c : Bool)
    (d : Int × Int) :
    ∀ (r i : Nat) (m : Move), 1 ≤ i →
      m ∈ ray_walk tiles piece x y q c d i r →
      (∀ j, 1 ≤ j → j < i → ray_on_board d x y j ∧ ray_empty tiles d x y j) →
      ∃ k, i ≤ k ∧ k < i + r ∧ ray_on_board d x y k ∧
        (∀ j, 1 ≤ j → j < k → ray_on_board d x y j ∧ ray_empty tiles d x y j) ∧
        ray_move_shape tiles piece x y q c d k m := by
  intro r
  induction r with
  | zero => intro i m hi hm hinv; simp [ray_walk] at hm
  | succ r ih =>
    intro i m hi hm hinv
    simp only [ray_walk] at hm
    split at hm
    · simp at hm
    · rename_i hbound
      push_neg at hbound
      have hob : ray_on_board d x y i := by
        unfold ray_on_board ray_target
        exact ⟨hbound.1, hbound.2.1, hbound.2.2.1, hbound.2.2.2⟩
      split at hm
      · rename_i oc hoc
        split at hm
        · rename_i hcap
          simp at hm
          subst hm
          exact ⟨i, le_refl i, by omega, hob, hinv,
            Or.inr ⟨hcap.2, oc, rfl, hoc, hcap.1⟩⟩
        · simp at hm
      · rename_i hoc
        rcases List.mem_append.mp hm with h1 | h2
        · split at h1
          · rename_i hq
            simp at h1
            subst h1
            exact ⟨i, le_refl i, by omega, hob, hinv, Or.inl ⟨hq, rfl, hoc⟩⟩
          · simp at h1
        · have hinv2 : ∀ j, 1 ≤ j → j < i + 1 →
              ray_on_board d x y j ∧ ray_empty tiles d x y j := by
            intro j hj1 hj2
            rcases Nat.lt_or_ge j i with hj | hj
            · exact hinv j hj1 hj
            · have : j = i := by omega
              subst this
              exact ⟨hob, hoc⟩
          obtain ⟨k, hk1, hk2, hk3, hk4, hk5⟩ := ih (i + 1) m (by omega) h2 hinv2
          exact ⟨k, by omega, by omega, hk3, hk4, hk5⟩

/-- C6: every move the pseudo-legal generator emits for a rook, bishop
or queen lies on one of the piece's direction rays at some step `k`
with 1 ≤ k ≤ 8, every strictly intermediate step of the ray on-board
and empty (so no move lands on or beyond a blocker), and the move is a
Quiet move to an empty square or a Capture (capture square = target)
of an opposite-colored piece; a same-colored blocker yields neither. -/
theorem sliding_moves_follow_blocked_rays (g : Game) (x y : Nat) (piece : Piece)
    (skip_castle : Bool) (ms : List Move) (m : Move)
    (hp : g.board.get_tile x y = some piece)
    (ht : piece.piece_type = .Rook ∨ piece.piece_type = .Bishop ∨
      piece.piece_type = .Queen)
    (hg : g.gen_pseudo_legal_moves x y skip_castle = some ms) (hm : m ∈ ms) :
    ∃ d ∈ (out_search_of piece.piece_type).dirs, ∃ k, 1 ≤ k ∧ k ≤ 8 ∧
      ray_on_board d x y k ∧
      (∀ j, 1 ≤ j → j < k → ray_on_board d x y j ∧ ray_empty g.board.tiles d x y j) ∧
      ray_move_shape g.board.tiles piece x y true true d k m := by
  have hpawn : piece.piece_type ≠ .Pawn := by
    rcases ht with h | h | h <;> rw [h] <;> intro hx <;> exact PieceType.noConfusion hx
  have hking : ¬ (piece.piece_type = .King ∧ ¬skip_castle) := by
    rintro ⟨hk, _⟩
    rcases ht with h | h | h <;> rw [h] at hk <;> exact PieceType.noConfusion hk
  unfold Game.gen_pseudo_legal_moves at hg
  rw [hp] at hg
  simp only [if_neg hking, List.append_nil] at hg
  rw [Option.some.injEq] at hg
  unfold base_moves at hg
  rw [if_neg hpawn] at hg
  subst hg
  unfold search_moves at hm
  rcases List.mem_flatMap.mp hm with ⟨d, hd, hmd⟩
  have hdepth : (out_search_of piece.piece_type).depth = 8 := by
    rcases ht with h | h | h <;> rw [h] <;> rfl
  have hq : (out_search_of piece.piece_type).quiet = true := by
    rcases ht with h | h | h <;> rw [h] <;> rfl
  have hc : (out_search_of piece.piece_type).captures = true := by
    rcases ht with h | h | h <;> rw [h] <;> rfl
  rw [hdepth] at hmd
  obtain ⟨k, hk1, hk2, hk3, hk4, hk5⟩ :=
    ray_walk_mem_spec g.board.tiles piece x y _ _ d 8 1 m (le_refl 1) hmd
      (by intro j hj1 hj2; omega)
  rw [hq, hc] at hk5
  exact ⟨d, hd, k, hk1, by omega, hk3, hk4, hk5⟩

/-- Witness for C6: the rook of `rookGame` on (0,0); its capture of
the black pawn three steps down the file. -/
theorem sliding_moves_follow_blocked_rays_witness :
    rookGame.gen_pseudo_legal_moves 0 0 false = some
      [.Quiet (0, 0) (1, 0), .Quiet (0, 0) (2, 0), .Quiet (0, 0) (3, 0),
       .Quiet (0, 0) (4, 0), .Quiet (0, 0) (5, 0), .Quiet (0, 0) (6, 0),
       .Quiet (0, 0) (7, 0), .Quiet (0, 0) (0, 1), .Quiet (0, 0) (0, 2),
       .Capture (0, 0) (0, 3) (0, 3)] ∧
    (∃ d ∈ (out_search_of PieceType.Rook).dirs, ∃ k, 1 ≤ k ∧ k ≤ 8 ∧
      ray_on_board d 0 0 k ∧
      (∀ j, 1 ≤ j → j < k →
        ray_on_board d 0 0 j ∧ ray_empty rookGame.board.tiles d 0 0 j) ∧
      ray_move_shape rookGame.board.tiles ⟨.Rook, .White⟩ 0 0 true true d k
        (.Capture (0, 0) (0, 3) (0, 3))) :=
  ⟨by decide,
    sliding_moves_follow_blocked_rays rookGame 0 0 ⟨.Rook, .White⟩ false
      [.Quiet (0, 0) (1, 0), .Quiet (0, 0) (2, 0), .Quiet (0, 0) (3, 0),
       .Quiet (0, 0) (4, 0), .Quiet (0, 0) (5, 0), .Quiet (0, 0) (6, 0),
       .Quiet (0, 0) (7, 0), .Quiet (0, 0) (0, 1), .Quiet (0, 0) (0, 2),
       .Capture (0, 0) (0, 3) (0, 3)]
      (.Capture (0, 0) (0, 3) (0, 3)) (by decide) (Or.inl rfl) (by decide) (by decide)⟩

end Chers
